import Mathlib

/-!
Shallow embedding of `src/implicit/src/implicit.hpp` (implicit SGD for GLMs).

Modelling conventions:
- C++ `double` is modelled as `ℝ`.
- Armadillo row/column vectors are modelled as `List ℝ`; the dot product
  `dot(a, b)` / `as_scalar(x * theta)` is `dotprod`.
- `boost::function` members that may be left empty (the transfer bindings of
  `Imp_Experiment`) are modelled as `Option (ℝ → ℝ)`; calling an empty
  function object (a `bad_function_call` fault) is modelled as `none`.
- p×p learning-rate matrices are `Matrix (Fin p) (Fin p) ℝ`.
- Armadillo `uword` (unsigned) index arithmetic in `Imp_OnlineOutput` is
  modelled with explicit wraparound modulo `2 ^ 64`; an out-of-bounds column
  access is modelled as `none`.
-/

/-- Armadillo `dot(a, b)` / `as_scalar(x * theta)`: sum of elementwise products. -/
def dotprod (a b : List ℝ) : ℝ :=
  (List.zipWith (fun u v => u * v) a b).sum

/-- `struct Imp_DataPoint`: design row vector `x` and scalar response `y`. -/
structure Imp_DataPoint where
  x : List ℝ
  y : ℝ

/-- A dense real matrix in the style of `arma::mat`: dimensions plus an entry
function.  Entries outside the bounds are irrelevant to in-bounds accesses. -/
structure ArmaMat where
  n_rows : ℕ
  n_cols : ℕ
  entry : ℕ → ℕ → ℝ

/-- Width of Armadillo's unsigned index type `uword` (64-bit). -/
def uwordSize : ℕ := 2 ^ 64

/-- `m.col(j)`: the j-th column, defined only when `j` is in bounds
(Armadillo faults on an out-of-bounds column access). -/
def ArmaMat.col (m : ArmaMat) (j : ℕ) : Option (ℕ → ℝ) :=
  if j < m.n_cols then some (fun i => m.entry i j) else none

/-- `struct Imp_OnlineOutput`: the trajectory of estimates. -/
structure Imp_OnlineOutput where
  estimates : ArmaMat

/-- The default constructor `Imp_OnlineOutput()`: an empty (0×0) estimates
matrix. -/
def Imp_OnlineOutput.default : Imp_OnlineOutput :=
  ⟨⟨0, 0, fun _ _ => 0⟩⟩

/-- `Imp_OnlineOutput::last_estimate()`: returns
`estimates.col(estimates.n_cols - 1)`, where `n_cols - 1` is computed in the
unsigned type `uword` and therefore wraps around modulo `2 ^ 64` when
`n_cols = 0`. -/
def Imp_OnlineOutput.last_estimate (o : Imp_OnlineOutput) : Option (ℕ → ℝ) :=
  o.estimates.col ((o.estimates.n_cols + uwordSize - 1) % uwordSize)

/-- `Imp_Identity_Transfer::transfer(u) = u`. -/
def Imp_Identity_Transfer.transfer (u : ℝ) : ℝ := u

/-- `Imp_Identity_Transfer::first_derivative(u) = 1`. -/
def Imp_Identity_Transfer.first_derivative (_u : ℝ) : ℝ := 1

/-- `Imp_Identity_Transfer::second_derivative(u) = 0`. -/
def Imp_Identity_Transfer.second_derivative (_u : ℝ) : ℝ := 0

/-- `Imp_Exp_Transfer::transfer(u) = exp(u)`. -/
noncomputable def Imp_Exp_Transfer.transfer (u : ℝ) : ℝ := Real.exp u

/-- `Imp_Exp_Transfer::first_derivative(u) = exp(u)`. -/
noncomputable def Imp_Exp_Transfer.first_derivative (u : ℝ) : ℝ := Real.exp u

/-- `Imp_Exp_Transfer::second_derivative(u) = exp(u)`. -/
noncomputable def Imp_Exp_Transfer.second_derivative (u : ℝ) : ℝ := Real.exp u

/-- `Imp_Logistic_Transfer::sigmoid(u) = 1 / (1 + exp(-u))`. -/
noncomputable def Imp_Logistic_Transfer.sigmoid (u : ℝ) : ℝ :=
  1 / (1 + Real.exp (-u))

/-- `Imp_Logistic_Transfer::transfer(u) = sigmoid(u)`. -/
noncomputable def Imp_Logistic_Transfer.transfer (u : ℝ) : ℝ :=
  Imp_Logistic_Transfer.sigmoid u

/-- `Imp_Logistic_Transfer::first_derivative(u) = sig * (1 - sig)`. -/
noncomputable def Imp_Logistic_Transfer.first_derivative (u : ℝ) : ℝ :=
  Imp_Logistic_Transfer.sigmoid u * (1 - Imp_Logistic_Transfer.sigmoid u)

/-- `Imp_Logistic_Transfer::second_derivative(u) = 2*sig^3 - 3*sig^2 + 2*sig`. -/
noncomputable def Imp_Logistic_Transfer.second_derivative (u : ℝ) : ℝ :=
  2 * Imp_Logistic_Transfer.sigmoid u ^ 3 - 3 * Imp_Logistic_Transfer.sigmoid u ^ 2 +
    2 * Imp_Logistic_Transfer.sigmoid u

/-- `struct Imp_Experiment`.  The three `boost::function` transfer bindings are
`Option`s: `none` models an empty (never-assigned) function object.  The C++
constructor leaves the members `p`, `n_iters`, `model_name` uninitialized; the
claims never read them, and the embedding carries them as plain fields. -/
structure Imp_Experiment where
  p : ℕ
  n_iters : ℕ
  model_name : String
  transfer_ : Option (ℝ → ℝ)
  transfer_first_deriv_ : Option (ℝ → ℝ)
  transfer_second_deriv_ : Option (ℝ → ℝ)

/-- `Imp_Experiment::Imp_Experiment(std::string transfer_name)`: binds the
three transfer functions for the names "identity", "exp", "logistic", and
leaves every binding empty for any other name (no error is signalled). -/
noncomputable def Imp_Experiment.ofTransferName (transfer_name : String) : Imp_Experiment :=
  if transfer_name = "identity" then
    { p := 0, n_iters := 0, model_name := "",
      transfer_ := some Imp_Identity_Transfer.transfer,
      transfer_first_deriv_ := some Imp_Identity_Transfer.first_derivative,
      transfer_second_deriv_ := some Imp_Identity_Transfer.second_derivative }
  else if transfer_name = "exp" then
    { p := 0, n_iters := 0, model_name := "",
      transfer_ := some Imp_Exp_Transfer.transfer,
      transfer_first_deriv_ := some Imp_Exp_Transfer.first_derivative,
      transfer_second_deriv_ := some Imp_Exp_Transfer.second_derivative }
  else if transfer_name = "logistic" then
    { p := 0, n_iters := 0, model_name := "",
      transfer_ := some Imp_Logistic_Transfer.transfer,
      transfer_first_deriv_ := some Imp_Logistic_Transfer.first_derivative,
      transfer_second_deriv_ := some Imp_Logistic_Transfer.second_derivative }
  else
    { p := 0, n_iters := 0, model_name := "",
      transfer_ := none, transfer_first_deriv_ := none, transfer_second_deriv_ := none }

/-- `Imp_Experiment::h_transfer(u)`: calls the bound transfer function;
`none` models the `bad_function_call` fault on an empty binding. -/
def Imp_Experiment.h_transfer (e : Imp_Experiment) (u : ℝ) : Option ℝ :=
  e.transfer_.map (fun f => f u)

/-- `Imp_Experiment::h_first_derivative(u)`. -/
def Imp_Experiment.h_first_derivative (e : Imp_Experiment) (u : ℝ) : Option ℝ :=
  e.transfer_first_deriv_.map (fun f => f u)

/-- `Imp_Experiment::h_second_derivative(u)`. -/
def Imp_Experiment.h_second_derivative (e : Imp_Experiment) (u : ℝ) : Option ℝ :=
  e.transfer_second_deriv_.map (fun f => f u)

/-- `Imp_Experiment::score_function(theta_old, datapoint)`:
`((y - h_transfer(x·theta)) * x).t()`, a p×1 column vector. -/
def Imp_Experiment.score_function (e : Imp_Experiment) (theta_old : List ℝ)
    (datapoint : Imp_DataPoint) : Option (List ℝ) :=
  (e.h_transfer (dotprod datapoint.x theta_old)).map
    (fun hv => datapoint.x.map (fun xi => (datapoint.y - hv) * xi))

/-- The scalar step size computed inside `Imp_Unidim_Learn_Rate::learning_rate`:
`lr = scale * gamma * pow(1 + alpha * gamma * t, -c)`. -/
noncomputable def Imp_Unidim_Learn_Rate.rate (gamma alpha c scale : ℝ) (t : ℕ) : ℝ :=
  scale * gamma * (1 + alpha * gamma * (t : ℝ)) ^ (-c)

/-- `Imp_Unidim_Learn_Rate::learning_rate`: the scalar step size times the
p×p identity matrix. -/
noncomputable def Imp_Unidim_Learn_Rate.learning_rate (_theta_old : List ℝ)
    (_data_pt : Imp_DataPoint) (t p : ℕ) (gamma alpha c scale : ℝ) :
    Matrix (Fin p) (Fin p) ℝ :=
  Imp_Unidim_Learn_Rate.rate gamma alpha c scale t • (1 : Matrix (Fin p) (Fin p) ℝ)

/-- The pre-inversion matrix built inside `Imp_Pxdim_Learn_Rate::learning_rate`:
`Idiag = eye(p, p) + diagmat(Gi * Gi.t())` with `Gi = score_func(theta_old, data_pt)`. -/
noncomputable def Imp_Pxdim_Learn_Rate.pre (score_func : List ℝ → Imp_DataPoint → List ℝ)
    (theta_old : List ℝ) (data_pt : Imp_DataPoint) (p : ℕ) :
    Matrix (Fin p) (Fin p) ℝ :=
  let Gi := score_func theta_old data_pt
  let outer : Matrix (Fin p) (Fin p) ℝ :=
    Matrix.of fun i j => Gi.getD (i : ℕ) 0 * Gi.getD (j : ℕ) 0
  (1 : Matrix (Fin p) (Fin p) ℝ) + Matrix.diagonal (fun i => outer i i)

/-- `Imp_Pxdim_Learn_Rate::learning_rate`: starting from the pre-inversion
matrix, the loop replaces every diagonal entry whose magnitude exceeds `1e-8`
by its reciprocal and leaves every other entry unchanged. -/
noncomputable def Imp_Pxdim_Learn_Rate.learning_rate (theta_old : List ℝ) (data_pt : Imp_DataPoint)
    (_t p : ℕ) (score_func : List ℝ → Imp_DataPoint → List ℝ) :
    Matrix (Fin p) (Fin p) ℝ :=
  let Idiag := Imp_Pxdim_Learn_Rate.pre score_func theta_old data_pt p
  Matrix.of fun i j =>
    if i = j ∧ 1e-8 < |Idiag i i| then 1 / Idiag i i else Idiag i j

/-- `Imp_Gaussian::variance(u) = 1`. -/
def Imp_Gaussian.variance (_u : ℝ) : ℝ := 1

/-- `Imp_Gaussian::deviance(y, mu, wt) = sum(wt % ((y-mu) % (y-mu)))`. -/
def Imp_Gaussian.deviance (y mu wt : List ℝ) : ℝ :=
  (List.zipWith (fun w s => w * s) wt
    (List.zipWith (fun a b => (a - b) * (a - b)) y mu)).sum

/-- `Imp_Poisson::variance(u) = u`. -/
def Imp_Poisson.variance (u : ℝ) : ℝ := u

/-- `Imp_Poisson::deviance(y, mu, wt)`: `r` starts as the elementwise product
`mu % wt`; for indices with `y(i) > 0` it is overwritten by
`wt(i) * (y(i) * log(y(i)/mu(i)) - (y(i) - mu(i)))`; the result is `sum(2 * r)`. -/
noncomputable def Imp_Poisson.deviance (y mu wt : List ℝ) : ℝ :=
  let r0 := List.zipWith (fun m w => m * w) mu wt
  let r := (List.range r0.length).map (fun i =>
    if 0 < y.getD i 0 then
      wt.getD i 0 * (y.getD i 0 * Real.log (y.getD i 0 / mu.getD i 0)
        - (y.getD i 0 - mu.getD i 0))
    else r0.getD i 0)
  (r.map (fun v => 2 * v)).sum

/-- `Imp_Binomial::variance(u) = u * (1 - u)`. -/
def Imp_Binomial.variance (u : ℝ) : ℝ := u * (1 - u)

/-- `Imp_Binomial::y_log_y(y, mu) = (y) ? (y * log(y/mu)) : 0`. -/
noncomputable def Imp_Binomial.y_log_y (y mu : ℝ) : ℝ :=
  if y ≠ 0 then y * Real.log (y / mu) else 0

/-- `Imp_Binomial::deviance(y, mu, wt)`: the sum over `i < y.n_elem` of
`2 * wt(i) * (y_log_y(y(i), mu(i)) + y_log_y(1 - y(i), 1 - mu(i)))`. -/
noncomputable def Imp_Binomial.deviance (y mu wt : List ℝ) : ℝ :=
  ((List.range y.length).map (fun i =>
    2 * wt.getD i 0 * (Imp_Binomial.y_log_y (y.getD i 0) (mu.getD i 0) +
      Imp_Binomial.y_log_y (1 - y.getD i 0) (1 - mu.getD i 0)))).sum

/-- `struct Get_score_coeff`: closes over the experiment, one data point, the
old parameter vector and the scalar `normx`. -/
structure Get_score_coeff where
  experiment : Imp_Experiment
  datapoint : Imp_DataPoint
  theta_old : List ℝ
  normx : ℝ

/-- `Get_score_coeff::operator()(ksi)`:
`y - h_transfer(dot(theta_old, x) + normx * ksi)`. -/
def Get_score_coeff.app (g : Get_score_coeff) (ksi : ℝ) : Option ℝ :=
  (g.experiment.h_transfer (dotprod g.theta_old g.datapoint.x + g.normx * ksi)).map
    (fun v => g.datapoint.y - v)

/-- `Get_score_coeff::first_derivative(ksi)`:
`h_first_derivative(dot(theta_old, x) + normx * ksi) * normx`. -/
def Get_score_coeff.first_derivative (g : Get_score_coeff) (ksi : ℝ) : Option ℝ :=
  (g.experiment.h_first_derivative (dotprod g.theta_old g.datapoint.x + g.normx * ksi)).map
    (fun v => v * g.normx)

/-- `Get_score_coeff::second_derivative(ksi)`:
`h_second_derivative(dot(theta_old, x) + normx * ksi) * normx * normx`. -/
def Get_score_coeff.second_derivative (g : Get_score_coeff) (ksi : ℝ) : Option ℝ :=
  (g.experiment.h_second_derivative (dotprod g.theta_old g.datapoint.x + g.normx * ksi)).map
    (fun v => v * g.normx * g.normx)

/-- `struct Implicit_fn`: the scalar learning rate `at` and the coefficient
functor `g`.  (`at` is a reserved word in Lean; the field is named `a_t`.) -/
structure Implicit_fn where
  a_t : ℝ
  g : Get_score_coeff

/-- `Implicit_fn::operator()(u)`: the triple
`(u - at * g(u), 1 + at * g.first_derivative(u), at * g.second_derivative(u))`;
`none` if any bound transfer function is empty. -/
def Implicit_fn.app (f : Implicit_fn) (u : ℝ) : Option (ℝ × ℝ × ℝ) :=
  match f.g.app u, f.g.first_derivative u, f.g.second_derivative u with
  | some gv, some g1, some g2 =>
      some (u - f.a_t * gv, 1 + f.a_t * g1, f.a_t * g2)
  | _, _, _ => none

/-- Modelled from the spec: the Poisson deviance formula as the specification
states it, `Σ 2·wᵢ·(yᵢ·log(yᵢ/µᵢ) − (yᵢ−µᵢ))` with the `y·log(y/µ)` term
defined as `0` whenever `yᵢ ≤ 0`.  Used to compare the claimed formula with
`Imp_Poisson.deviance`. -/
noncomputable def specPoissonDeviance (y mu wt : List ℝ) : ℝ :=
  ((List.range y.length).map (fun i =>
    2 * wt.getD i 0 *
      ((if 0 < y.getD i 0 then y.getD i 0 * Real.log (y.getD i 0 / mu.getD i 0) else 0)
        - (y.getD i 0 - mu.getD i 0)))).sum

/-- C2: for every `transfer_name` other than "identity", "exp", "logistic",
the `Imp_Experiment` constructor completes without signalling any error (it is
a total function) and leaves the transfer binding unset, so that every
subsequent call to `h_transfer` faults (returns `none`, the model of calling
an empty function object) instead of returning a value. -/
theorem C2_unknown_transfer_name_faults (transfer_name : String)
    (h1 : transfer_name ≠ "identity") (h2 : transfer_name ≠ "exp")
    (h3 : transfer_name ≠ "logistic") :
    (Imp_Experiment.ofTransferName transfer_name).transfer_ = none ∧
    ∀ u : ℝ, (Imp_Experiment.ofTransferName transfer_name).h_transfer u = none := by
  simp [Imp_Experiment.ofTransferName, Imp_Experiment.h_transfer, h1, h2, h3]

/-- Witness for C2 at the concrete name "linear". -/
theorem C2_unknown_transfer_name_faults_witness :
    ("linear" ≠ "identity" ∧ "linear" ≠ "exp" ∧ "linear" ≠ "logistic") ∧
    (Imp_Experiment.ofTransferName "linear").transfer_ = none ∧
    ∀ u : ℝ, (Imp_Experiment.ofTransferName "linear").h_transfer u = none :=
  ⟨⟨by decide, by decide, by decide⟩,
    C2_unknown_transfer_name_faults "linear" (by decide) (by decide) (by decide)⟩

/-- C3: for every learning rate `a`, query point `u`, and `Get_score_coeff`
instance whose experiment has bound transfer functions `h`, `h1`, `h2`
(so that `g(ξ) = y − h(θ_old·x + normx·ξ)`,
`g'(ξ) = h1(θ_old·x + normx·ξ)·normx`, `g''(ξ) = h2(θ_old·x + normx·ξ)·normx²`),
`Implicit_fn` at `u` returns exactly the triple
`(u − a·g(u), 1 + a·g'(u), a·g''(u))`. -/
theorem C3_implicit_fn_triple (a u : ℝ) (e : Imp_Experiment) (d : Imp_DataPoint)
    (theta : List ℝ) (n : ℝ) (h h1 h2 : ℝ → ℝ)
    (ht : e.transfer_ = some h) (ht1 : e.transfer_first_deriv_ = some h1)
    (ht2 : e.transfer_second_deriv_ = some h2) :
    Implicit_fn.app ⟨a, ⟨e, d, theta, n⟩⟩ u =
      some (u - a * (d.y - h (dotprod theta d.x + n * u)),
            1 + a * (h1 (dotprod theta d.x + n * u) * n),
            a * (h2 (dotprod theta d.x + n * u) * n * n)) := by
  simp [Implicit_fn.app, Get_score_coeff.app, Get_score_coeff.first_derivative,
    Get_score_coeff.second_derivative, Imp_Experiment.h_transfer,
    Imp_Experiment.h_first_derivative, Imp_Experiment.h_second_derivative,
    ht, ht1, ht2]

/-- Witness for C3 at the identity-transfer experiment,
`a = 2`, `u = 3`, `x = [1]`, `y = 5`, `θ = [4]`, `normx = 6`. -/
theorem C3_implicit_fn_triple_witness :
    (Imp_Experiment.ofTransferName "identity").transfer_ =
        some Imp_Identity_Transfer.transfer ∧
    (Imp_Experiment.ofTransferName "identity").transfer_first_deriv_ =
        some Imp_Identity_Transfer.first_derivative ∧
    (Imp_Experiment.ofTransferName "identity").transfer_second_deriv_ =
        some Imp_Identity_Transfer.second_derivative ∧
    Implicit_fn.app ⟨2, ⟨Imp_Experiment.ofTransferName "identity", ⟨[1], 5⟩, [4], 6⟩⟩ 3 =
      some (3 - 2 * (5 - Imp_Identity_Transfer.transfer (dotprod [4] [1] + 6 * 3)),
            1 + 2 * (Imp_Identity_Transfer.first_derivative (dotprod [4] [1] + 6 * 3) * 6),
            2 * (Imp_Identity_Transfer.second_derivative (dotprod [4] [1] + 6 * 3) * 6 * 6)) :=
  ⟨rfl, rfl, rfl,
    C3_implicit_fn_triple 2 3 (Imp_Experiment.ofTransferName "identity") ⟨[1], 5⟩ [4] 6
      Imp_Identity_Transfer.transfer Imp_Identity_Transfer.first_derivative
      Imp_Identity_Transfer.second_derivative rfl rfl rfl⟩

/-- C4: for every experiment whose transfer binding is `some h` and every
`theta_old` and data point of matching dimension, `score_function` returns the
p-vector with entries `(y − h(x·theta_old)) * xᵢ`, i.e. `(y − h(x·θ))·xᵗ`.
The embedding is a pure function, so neither `theta_old` nor the data point is
mutated. -/
theorem C4_score_function_formula (e : Imp_Experiment) (theta_old : List ℝ)
    (d : Imp_DataPoint) (h : ℝ → ℝ) (ht : e.transfer_ = some h)
    (_hdim : theta_old.length = d.x.length) :
    e.score_function theta_old d =
      some (d.x.map (fun xi => (d.y - h (dotprod d.x theta_old)) * xi)) := by
  simp [Imp_Experiment.score_function, Imp_Experiment.h_transfer, ht]

/-- Witness for C4 at the identity-transfer experiment, `θ = [1, 1]`,
`x = [1, 2]`, `y = 5`. -/
theorem C4_score_function_formula_witness :
    (Imp_Experiment.ofTransferName "identity").transfer_ =
        some Imp_Identity_Transfer.transfer ∧
    ([1, 1] : List ℝ).length = ([1, 2] : List ℝ).length ∧
    (Imp_Experiment.ofTransferName "identity").score_function [1, 1] ⟨[1, 2], 5⟩ =
      some (([1, 2] : List ℝ).map
        (fun xi => (5 - Imp_Identity_Transfer.transfer (dotprod [1, 2] [1, 1])) * xi)) :=
  ⟨rfl, rfl,
    C4_score_function_formula (Imp_Experiment.ofTransferName "identity") [1, 1]
      ⟨[1, 2], 5⟩ Imp_Identity_Transfer.transfer rfl rfl⟩

/-- C10: `last_estimate` returns the final column of the estimates matrix only
under the precondition that the matrix has at least one column; on an output
whose estimates matrix has zero columns (e.g. default-constructed), the column
index `n_cols − 1` wraps around as an unsigned value to `2^64 − 1` and the
column access is out of bounds (`none`). -/
theorem C10_last_estimate (o : Imp_OnlineOutput)
    (hpos : 0 < o.estimates.n_cols) (hlt : o.estimates.n_cols < uwordSize) :
    (o.last_estimate = some (fun i => o.estimates.entry i (o.estimates.n_cols - 1))) ∧
    ((0 + uwordSize - 1) % uwordSize = uwordSize - 1 ∧
      Imp_OnlineOutput.default.last_estimate = none) := by
  constructor
  · have hidx : (o.estimates.n_cols + uwordSize - 1) % uwordSize =
        o.estimates.n_cols - 1 := by
      simp only [uwordSize] at hlt ⊢
      omega
    have hb : o.estimates.n_cols - 1 < o.estimates.n_cols := by omega
    simp [Imp_OnlineOutput.last_estimate, ArmaMat.col, hidx, hb]
  · constructor
    · simp only [uwordSize]
      omega
    · simp [Imp_OnlineOutput.last_estimate, Imp_OnlineOutput.default, ArmaMat.col,
        uwordSize]

/-- Witness for C10 at a one-column output. -/
theorem C10_last_estimate_witness :
    0 < (⟨⟨2, 1, fun _ _ => 0⟩⟩ : Imp_OnlineOutput).estimates.n_cols ∧
    (⟨⟨2, 1, fun _ _ => 0⟩⟩ : Imp_OnlineOutput).estimates.n_cols < uwordSize ∧
    ((⟨⟨2, 1, fun _ _ => 0⟩⟩ : Imp_OnlineOutput).last_estimate =
      some (fun i => (⟨⟨2, 1, fun _ _ => 0⟩⟩ : Imp_OnlineOutput).estimates.entry i
        ((⟨⟨2, 1, fun _ _ => 0⟩⟩ : Imp_OnlineOutput).estimates.n_cols - 1)) ∧
      ((0 + uwordSize - 1) % uwordSize = uwordSize - 1 ∧
        Imp_OnlineOutput.default.last_estimate = none)) :=
  ⟨by decide, by norm_num [uwordSize],
    C10_last_estimate ⟨⟨2, 1, fun _ _ => 0⟩⟩ (by decide) (by norm_num [uwordSize])⟩

/-- C1: for the Identity transfer with fixed scalar learning rate `a` and
`n = ‖x‖²` (the `normx` argument of `Get_score_coeff`), the fixed point
`ξ* = a(y − θ·x)/(1 + a·n)` solves `ξ = a(y − θ·x − n·ξ)`, and the value
component produced by `Implicit_fn` at `ξ*` is zero (the full triple is
`(0, 1 + a·n, 0)`); the witness instantiates `θ = [0,0]`, `x = [1,2]`,
`y = 3`, `a = 0.1`, where `ξ* = 0.2`. -/
theorem C1_identity_fixed_point (theta x : List ℝ) (y a n xstar : ℝ)
    (_hn : n = dotprod x x) (hden : 1 + a * n ≠ 0)
    (hx : xstar = a * (y - dotprod theta x) / (1 + a * n)) :
    xstar = a * (y - dotprod theta x - n * xstar) ∧
    Implicit_fn.app ⟨a, ⟨Imp_Experiment.ofTransferName "identity", ⟨x, y⟩, theta, n⟩⟩
      xstar = some (0, 1 + a * n, 0) := by
  have h1 : xstar * (1 + a * n) = a * (y - dotprod theta x) := by
    rw [hx]
    field_simp
  have hfix : xstar = a * (y - dotprod theta x - n * xstar) := by
    linear_combination h1
  refine ⟨hfix, ?_⟩
  have hred : Implicit_fn.app
      ⟨a, ⟨Imp_Experiment.ofTransferName "identity", ⟨x, y⟩, theta, n⟩⟩ xstar =
      some (xstar - a * (y - (dotprod theta x + n * xstar)),
            1 + a * (1 * n), a * (0 * n * n)) := rfl
  rw [hred]
  simp only [Option.some.injEq, Prod.mk.injEq]
  refine ⟨?_, by ring, by ring⟩
  linear_combination hfix

/-- Witness for C1 at `θ = [0,0]`, `x = [1,2]`, `y = 3`, `a = 0.1`,
`n = ‖x‖² = 5`, `ξ* = 0.2`. -/
theorem C1_identity_fixed_point_witness :
    ((5 : ℝ) = dotprod [1, 2] [1, 2] ∧ (1 : ℝ) + 0.1 * 5 ≠ 0 ∧
      (0.2 : ℝ) = 0.1 * (3 - dotprod [0, 0] [1, 2]) / (1 + 0.1 * 5)) ∧
    (0.2 : ℝ) = 0.1 * (3 - dotprod [0, 0] [1, 2] - 5 * 0.2) ∧
    Implicit_fn.app ⟨0.1, ⟨Imp_Experiment.ofTransferName "identity", ⟨[1, 2], 3⟩, [0, 0], 5⟩⟩
      0.2 = some (0, 1 + 0.1 * 5, 0) :=
  ⟨⟨by norm_num [dotprod], by norm_num, by norm_num [dotprod]⟩,
    C1_identity_fixed_point [0, 0] [1, 2] 3 0.1 5 0.2
      (by norm_num [dotprod]) (by norm_num) (by norm_num [dotprod])⟩

/-- C5: the diagonal (per-parameter) learning-rate schedule returns a diagonal
matrix (every off-diagonal entry is zero); starting from the pre-inversion
matrix `I_p + diag(Gᵢ·Gᵢᵗ)` with `Gᵢ` the score at `(theta_old, data_pt)`,
every diagonal entry whose magnitude exceeds `1e-8` is replaced by its
reciprocal, and entries of magnitude at or below `1e-8` are returned
unchanged. -/
theorem C5_pxdim_diagonal (score_func : List ℝ → Imp_DataPoint → List ℝ)
    (theta_old : List ℝ) (d : Imp_DataPoint) (t p : ℕ) :
    (∀ i j : Fin p, i ≠ j →
      Imp_Pxdim_Learn_Rate.learning_rate theta_old d t p score_func i j = 0) ∧
    (∀ i : Fin p,
      Imp_Pxdim_Learn_Rate.learning_rate theta_old d t p score_func i i =
        if 1e-8 < |Imp_Pxdim_Learn_Rate.pre score_func theta_old d p i i| then
          1 / Imp_Pxdim_Learn_Rate.pre score_func theta_old d p i i
        else Imp_Pxdim_Learn_Rate.pre score_func theta_old d p i i) := by
  constructor
  · intro i j hij
    simp [Imp_Pxdim_Learn_Rate.learning_rate, Imp_Pxdim_Learn_Rate.pre, hij,
      Matrix.one_apply_ne hij, Matrix.diagonal_apply_ne _ hij]
  · intro i
    simp [Imp_Pxdim_Learn_Rate.learning_rate]

/-- Witness for C5 at `p = 2`, constant score `[3, 4]`, indices `(0, 1)` and `0`. -/
theorem C5_pxdim_diagonal_witness :
    ((0 : Fin 2) ≠ 1 ∧
      Imp_Pxdim_Learn_Rate.learning_rate [] ⟨[], 0⟩ 0 2 (fun _ _ => [3, 4]) 0 1 = 0) ∧
    Imp_Pxdim_Learn_Rate.learning_rate [] ⟨[], 0⟩ 0 2 (fun _ _ => [3, 4]) 0 0 =
      if 1e-8 < |Imp_Pxdim_Learn_Rate.pre (fun _ _ => [3, 4]) [] ⟨[], 0⟩ 2 0 0| then
        1 / Imp_Pxdim_Learn_Rate.pre (fun _ _ => [3, 4]) [] ⟨[], 0⟩ 2 0 0
      else Imp_Pxdim_Learn_Rate.pre (fun _ _ => [3, 4]) [] ⟨[], 0⟩ 2 0 0 :=
  ⟨⟨by decide,
      (C5_pxdim_diagonal (fun _ _ => [3, 4]) [] ⟨[], 0⟩ 0 2).1 0 1 (by decide)⟩,
    (C5_pxdim_diagonal (fun _ _ => [3, 4]) [] ⟨[], 0⟩ 0 2).2 0⟩

/-- C9: every pre-inversion diagonal entry of the diagonal learning-rate
schedule equals `1 + Gᵢ²`, hence its magnitude always exceeds the `1e-8`
threshold (the pass-through branch is unreachable), and every diagonal entry
of the returned matrix lies in `(0, 1]`. -/
theorem C9_pxdim_pre_entries (score_func : List ℝ → Imp_DataPoint → List ℝ)
    (theta_old : List ℝ) (d : Imp_DataPoint) (t p : ℕ) (i : Fin p) :
    Imp_Pxdim_Learn_Rate.pre score_func theta_old d p i i =
      1 + (score_func theta_old d).getD (i : ℕ) 0 *
        (score_func theta_old d).getD (i : ℕ) 0 ∧
    1e-8 < |Imp_Pxdim_Learn_Rate.pre score_func theta_old d p i i| ∧
    0 < Imp_Pxdim_Learn_Rate.learning_rate theta_old d t p score_func i i ∧
    Imp_Pxdim_Learn_Rate.learning_rate theta_old d t p score_func i i ≤ 1 := by
  set g := (score_func theta_old d).getD (i : ℕ) 0 with hg
  have hpre : Imp_Pxdim_Learn_Rate.pre score_func theta_old d p i i = 1 + g * g := by
    simp [Imp_Pxdim_Learn_Rate.pre, Matrix.one_apply_eq, hg]
  have hone : (1 : ℝ) ≤ 1 + g * g := by nlinarith [sq_nonneg g]
  have hposd : (0 : ℝ) < 1 + g * g := by linarith
  have habs : (1e-8 : ℝ) < |Imp_Pxdim_Learn_Rate.pre score_func theta_old d p i i| := by
    rw [hpre, abs_of_pos hposd]
    nlinarith [sq_nonneg g]
  have habs2 : (1e-8 : ℝ) < |1 + g * g| := by
    rw [← hpre]
    exact habs
  have hlr : Imp_Pxdim_Learn_Rate.learning_rate theta_old d t p score_func i i =
      1 / (1 + g * g) := by
    simp [Imp_Pxdim_Learn_Rate.learning_rate, hpre, habs2]
  refine ⟨hpre, habs, ?_, ?_⟩
  · rw [hlr]
    positivity
  · rw [hlr]
    exact (div_le_one hposd).mpr hone

/-- Counterexample for C7 as stated: with `γ = 1, α = 1, c = 1, scale = −1`
(so `α > 0` and `c > 0` hold), the uniform-rate schedule is *increasing* from
`t = 0` (rate −1) to `t = 1` (rate −1/2), refuting the claimed
non-increasingness for arbitrary `scale`. -/
theorem C7_counterexample :
    (0 : ℝ) < 1 ∧ (0 : ℝ) < 1 ∧
    ¬ (Imp_Unidim_Learn_Rate.learning_rate [] ⟨[], 0⟩ 1 1 1 1 1 (-1) 0 0 ≤
        Imp_Unidim_Learn_Rate.learning_rate [] ⟨[], 0⟩ 0 1 1 1 1 (-1) 0 0) := by
  refine ⟨by norm_num, by norm_num, ?_⟩
  have hmat : ∀ t : ℕ,
      Imp_Unidim_Learn_Rate.learning_rate [] ⟨[], 0⟩ t 1 1 1 1 (-1) 0 0 =
        Imp_Unidim_Learn_Rate.rate 1 1 1 (-1) t := by
    intro t
    simp [Imp_Unidim_Learn_Rate.learning_rate, Matrix.smul_apply, Matrix.one_apply_eq]
  have h2 : ((2 : ℝ)) ^ (-(1 : ℝ)) = 1 / 2 := by
    rw [Real.rpow_neg (by norm_num : (0:ℝ) ≤ 2), Real.rpow_one]
    norm_num
  have e0 : Imp_Unidim_Learn_Rate.rate 1 1 1 (-1) 0 = -1 := by
    rw [Imp_Unidim_Learn_Rate.rate]
    norm_num [Real.one_rpow]
  have e1 : Imp_Unidim_Learn_Rate.rate 1 1 1 (-1) 1 = -(1 / 2) := by
    rw [Imp_Unidim_Learn_Rate.rate]
    norm_num [h2]
  rw [hmat 0, hmat 1, e0, e1]
  norm_num

/-- C7 (amended): for fixed `(γ, α, c, scale)` with `α > 0`, `c > 0`, and
additionally `γ ≥ 0` and `scale ≥ 0`, the uniform-rate schedule returns
`scale·γ·(1 + α·γ·t)^(−c)·I_p` for every iteration `t` and dimension `p`, the
returned rate is non-increasing as `t` increases, and at `t = 0` the returned
matrix equals `scale·γ·I_p`. -/
theorem C7_unidim_schedule (gamma alpha c scale : ℝ) (theta_old : List ℝ)
    (d : Imp_DataPoint) (t p : ℕ) (halpha : 0 < alpha) (hc : 0 < c)
    (hgamma : 0 ≤ gamma) (hscale : 0 ≤ scale) :
    Imp_Unidim_Learn_Rate.learning_rate theta_old d t p gamma alpha c scale =
      Imp_Unidim_Learn_Rate.rate gamma alpha c scale t •
        (1 : Matrix (Fin p) (Fin p) ℝ) ∧
    Imp_Unidim_Learn_Rate.rate gamma alpha c scale (t + 1) ≤
      Imp_Unidim_Learn_Rate.rate gamma alpha c scale t ∧
    Imp_Unidim_Learn_Rate.learning_rate theta_old d 0 p gamma alpha c scale =
      (scale * gamma) • (1 : Matrix (Fin p) (Fin p) ℝ) := by
  refine ⟨rfl, ?_, ?_⟩
  · have hb1 : (0 : ℝ) < 1 + alpha * gamma * (t : ℝ) := by positivity
    have hb12 : 1 + alpha * gamma * (t : ℝ) ≤ 1 + alpha * gamma * ((t + 1 : ℕ) : ℝ) := by
      push_cast
      nlinarith [mul_nonneg halpha.le hgamma]
    have hr := Real.rpow_le_rpow_of_nonpos hb1 hb12 (neg_nonpos.mpr hc.le)
    have hsg : 0 ≤ scale * gamma := mul_nonneg hscale hgamma
    show scale * gamma * (1 + alpha * gamma * ((t + 1 : ℕ) : ℝ)) ^ (-c) ≤
      scale * gamma * (1 + alpha * gamma * (t : ℝ)) ^ (-c)
    exact mul_le_mul_of_nonneg_left hr hsg
  · simp [Imp_Unidim_Learn_Rate.learning_rate, Imp_Unidim_Learn_Rate.rate,
      Real.one_rpow]

/-- Witness for C7 (amended) at `γ = α = c = scale = 1`, `t = 0`, `p = 1`. -/
theorem C7_unidim_schedule_witness :
    ((0 : ℝ) < 1 ∧ (0 : ℝ) < 1 ∧ (0 : ℝ) ≤ 1 ∧ (0 : ℝ) ≤ 1) ∧
    (Imp_Unidim_Learn_Rate.learning_rate [] ⟨[], 0⟩ 0 1 1 1 1 1 =
      Imp_Unidim_Learn_Rate.rate 1 1 1 1 0 • (1 : Matrix (Fin 1) (Fin 1) ℝ) ∧
    Imp_Unidim_Learn_Rate.rate 1 1 1 1 (0 + 1) ≤ Imp_Unidim_Learn_Rate.rate 1 1 1 1 0 ∧
    Imp_Unidim_Learn_Rate.learning_rate [] ⟨[], 0⟩ 0 1 1 1 1 1 =
      ((1 : ℝ) * 1) • (1 : Matrix (Fin 1) (Fin 1) ℝ)) :=
  ⟨⟨by norm_num, by norm_num, by norm_num, by norm_num⟩,
    C7_unidim_schedule 1 1 1 1 [] ⟨[], 0⟩ 0 1
      (by norm_num) (by norm_num) (by norm_num) (by norm_num)⟩

/-- Counterexample for C6 as stated: at `y = [−1]`, `µ = [1]`, `wt = [1]` the
code computes deviance 2 (it keeps `r(i) = µᵢ·wᵢ` whenever `yᵢ ≤ 0`), while
the claimed formula `Σ 2wᵢ(yᵢ·log(yᵢ/µᵢ) − (yᵢ−µᵢ))` with the log term
zeroed for `yᵢ ≤ 0` gives 4. -/
theorem C6_counterexample :
    Imp_Poisson.deviance [-1] [1] [1] = 2 ∧
    specPoissonDeviance [-1] [1] [1] = 4 ∧
    Imp_Poisson.deviance [-1] [1] [1] ≠ specPoissonDeviance [-1] [1] [1] := by
  refine ⟨?_, ?_, ?_⟩ <;>
    norm_num [Imp_Poisson.deviance, specPoissonDeviance, List.range_succ]

/-- C6 (amended): for response, mean and weight vectors of equal length whose
response entries are all nonnegative, the Poisson deviance computed by the
code equals `Σ 2wᵢ(yᵢ·log(yᵢ/µᵢ) − (yᵢ−µᵢ))` with the `y·log(y/µ)` term
defined as 0 whenever `yᵢ ≤ 0` (i.e. `yᵢ = 0`). -/
theorem C6_poisson_deviance (y mu wt : List ℝ)
    (hy : ∀ a ∈ y, 0 ≤ a) (hl1 : y.length = mu.length)
    (hl2 : mu.length = wt.length) :
    Imp_Poisson.deviance y mu wt = specPoissonDeviance y mu wt := by
  have hlen : (List.zipWith (fun m w => m * w) mu wt).length = y.length := by
    simp [List.length_zipWith, hl1, hl2]
  simp only [Imp_Poisson.deviance, specPoissonDeviance, List.map_map, hlen]
  refine congrArg List.sum (List.map_congr_left ?_)
  intro i hi
  have hi' : i < y.length := List.mem_range.mp hi
  have himu : i < mu.length := hl1 ▸ hi'
  have hiwt : i < wt.length := hl2 ▸ himu
  simp only [Function.comp_apply]
  by_cases hpos : 0 < y.getD i 0
  · simp only [if_pos hpos]
    ring
  · simp only [if_neg hpos]
    have hymem : y.getD i 0 ∈ y := by
      rw [List.getD_eq_getElem y 0 hi']
      exact List.getElem_mem hi'
    have hy0 : y.getD i 0 = 0 := le_antisymm (not_lt.mp hpos) (hy _ hymem)
    have hr0 : (List.zipWith (fun m w => m * w) mu wt).getD i 0 =
        mu.getD i 0 * wt.getD i 0 := by
      rw [List.getD_eq_getElem _ 0 (hlen ▸ hi'), List.getElem_zipWith,
        List.getD_eq_getElem mu 0 himu, List.getD_eq_getElem wt 0 hiwt]
    rw [hr0, hy0]
    ring

/-- Witness for C6 (amended) at `y = [0, 2]`, `µ = [1, 2]`, `wt = [1, 3]`. -/
theorem C6_poisson_deviance_witness :
    ((∀ a ∈ ([0, 2] : List ℝ), 0 ≤ a) ∧
      ([0, 2] : List ℝ).length = ([1, 2] : List ℝ).length ∧
      ([1, 2] : List ℝ).length = ([1, 3] : List ℝ).length) ∧
    Imp_Poisson.deviance [0, 2] [1, 2] [1, 3] = specPoissonDeviance [0, 2] [1, 2] [1, 3] :=
  ⟨⟨by norm_num, by norm_num, by norm_num⟩,
    C6_poisson_deviance [0, 2] [1, 2] [1, 3] (by norm_num) (by norm_num) (by norm_num)⟩

/-- Helper: a weighted sum of zeros is zero. -/
theorem zipWith_mul_map_zero_sum (wt l : List ℝ) :
    (List.zipWith (fun w s => w * s) wt (l.map (fun _ => (0 : ℝ)))).sum = 0 := by
  induction wt generalizing l with
  | nil => simp
  | cons w ws ih =>
    cases l with
    | nil => simp
    | cons a l => simpa using ih l

/-- Helper: `y_log_y(a, a) = 0` for every `a` (for `a ≠ 0` because
`log(a/a) = log 1 = 0`, for `a = 0` by the guard). -/
theorem y_log_y_self (a : ℝ) : Imp_Binomial.y_log_y a a = 0 := by
  by_cases h : a = 0
  · simp [Imp_Binomial.y_log_y, h]
  · simp [Imp_Binomial.y_log_y, h, div_self h, Real.log_one]

/-- C8: the deviance of a perfect fit is zero: Gaussian deviance `(y, y, wt)`
vanishes for every `y`, Poisson deviance `(y, y, wt)` vanishes for every `y`
with nonnegative entries, Binomial deviance `(y, y, wt)` vanishes for every
`y` with entries in `(0, 1)`. -/
theorem C8_perfect_fit_deviance :
    (∀ y wt : List ℝ, Imp_Gaussian.deviance y y wt = 0) ∧
    (∀ y wt : List ℝ, (∀ a ∈ y, 0 ≤ a) → Imp_Poisson.deviance y y wt = 0) ∧
    (∀ y wt : List ℝ, (∀ a ∈ y, 0 < a ∧ a < 1) → Imp_Binomial.deviance y y wt = 0) := by
  refine ⟨?_, ?_, ?_⟩
  · intro y wt
    have h1 : List.zipWith (fun a b => (a - b) * (a - b)) y y =
        y.map (fun _ => (0 : ℝ)) := by
      rw [List.zipWith_same]
      simp
    simp only [Imp_Gaussian.deviance, h1]
    exact zipWith_mul_map_zero_sum wt y
  · intro y wt hy
    simp only [Imp_Poisson.deviance, List.map_map]
    apply List.sum_eq_zero
    intro v hv
    rw [List.mem_map] at hv
    obtain ⟨i, hi, hvi⟩ := hv
    have hi' : i < (List.zipWith (fun m w => m * w) y wt).length := List.mem_range.mp hi
    have hiy : i < y.length := List.lt_length_left_of_zipWith hi'
    have hiwt : i < wt.length := List.lt_length_right_of_zipWith hi'
    rw [← hvi]
    simp only [Function.comp_apply]
    by_cases hpos : 0 < y.getD i 0
    · rw [if_pos hpos, div_self (ne_of_gt hpos), Real.log_one]
      ring
    · rw [if_neg hpos]
      have hymem : y.getD i 0 ∈ y := by
        rw [List.getD_eq_getElem y 0 hiy]
        exact List.getElem_mem hiy
      have hy0 : y.getD i 0 = 0 := le_antisymm (not_lt.mp hpos) (hy _ hymem)
      have hr0 : (List.zipWith (fun m w => m * w) y wt).getD i 0 =
          y.getD i 0 * wt.getD i 0 := by
        rw [List.getD_eq_getElem _ 0 hi', List.getElem_zipWith,
          List.getD_eq_getElem y 0 hiy, List.getD_eq_getElem wt 0 hiwt]
      rw [hr0, hy0]
      ring
  · intro y wt _hy
    simp only [Imp_Binomial.deviance]
    apply List.sum_eq_zero
    intro v hv
    rw [List.mem_map] at hv
    obtain ⟨i, _, hvi⟩ := hv
    rw [← hvi, y_log_y_self, y_log_y_self]
    ring

/-- Witness for C8 at `y = [1, 2]` (Gaussian), `y = [0, 2]` (Poisson),
`y = [1/2]` (Binomial). -/
theorem C8_perfect_fit_deviance_witness :
    Imp_Gaussian.deviance [1, 2] [1, 2] [3, 4] = 0 ∧
    ((∀ a ∈ ([0, 2] : List ℝ), 0 ≤ a) ∧ Imp_Poisson.deviance [0, 2] [0, 2] [1, 1] = 0) ∧
    ((∀ a ∈ ([1 / 2] : List ℝ), 0 < a ∧ a < 1) ∧
      Imp_Binomial.deviance [1 / 2] [1 / 2] [1] = 0) :=
  ⟨C8_perfect_fit_deviance.1 [1, 2] [3, 4],
    ⟨by norm_num, C8_perfect_fit_deviance.2.1 [0, 2] [1, 1] (by norm_num)⟩,
    ⟨by norm_num, C8_perfect_fit_deviance.2.2 [1 / 2] [1] (by norm_num)⟩⟩
